import Mathlib

/-!
# Shallow embedding of the peephole-optimization passes of `src/optimizers.py`

The intermediate representation is Qiskit's DAG circuit: every wire (qubit)
threads a single path `InputTerminal → op → ... → op → OutputTerminal`, and the
whole DAG is determined by the program-order list of operation nodes together
with each node's ordered operand wires.  We embed a DAG as exactly that list
(`Graph.ops`, in topological program order) plus the number of wires, and
recover per-wire adjacency, successor and predecessor queries from it.

Gate parameters are embedded as exact rationals (`ℚ`); the spec requires exact
real addition of angles and all parameters appearing in the repository are
decimal literals.
-/

/-- The gate kinds constructed or matched anywhere in the repository. -/
inductive GateKind
  | x | h | z | t | tdg | cx | ccx | rx | swap
deriving DecidableEq

/-- A `DAGOpNode`: a node identity, its gate name, its ordered operand wires
(`qargs`) and its real parameters. -/
structure OpNode where
  id : Nat
  name : GateKind
  qargs : List Nat
  params : List ℚ
deriving DecidableEq

/-- A DAG circuit: wire count plus the operation nodes in program order.
Each wire's path visits, in list order, exactly the ops whose `qargs`
mention the wire. -/
structure Graph where
  nq : Nat
  ops : List OpNode
deriving DecidableEq

/-- The node identities present in the graph, in program order. -/
def Graph.ids (g : Graph) : List Nat := g.ops.map (·.id)

/-- Look an operation node up by identity (`none` once it has been removed). -/
def findOp (g : Graph) (i : Nat) : Option OpNode :=
  g.ops.find? (fun n => n.id == i)

/-- The operation nodes lying on wire `w`, in program order: the wire's path
from its input terminal to its output terminal restricted to op nodes. -/
def wireOps (g : Graph) (w : Nat) : List OpNode :=
  g.ops.filter (fun n => decide (w ∈ n.qargs))

/-- The op node directly after node `i` on wire `w`, if any
(`none` when the next hop is the wire's output terminal). -/
def nextOnWire (g : Graph) (w i : Nat) : Option OpNode :=
  ((wireOps g w).dropWhile (fun n => n.id != i)).tail.head?

/-- The op node directly before node `i` on wire `w`, if any
(`none` when the previous hop is the wire's input terminal). -/
def prevOnWire (g : Graph) (w i : Nat) : Option OpNode :=
  ((wireOps g w).takeWhile (fun n => n.id != i)).getLast?

/-- Drop nodes whose identity was already seen (keeps the first occurrence). -/
def dedupGo : List OpNode → List Nat → List OpNode
  | [], _ => []
  | a :: l, seen =>
    if a.id ∈ seen then dedupGo l seen else a :: dedupGo l (a.id :: seen)

/-- Deduplicate a node list by node identity. -/
def dedupIds (l : List OpNode) : List OpNode := dedupGo l []

/-- `[s for s in dag.successors(node) if isinstance(s, DAGOpNode)]`: the op
nodes one edge downstream of `n`, collected over `n`'s operand wires. -/
def opSuccessors (g : Graph) (n : OpNode) : List OpNode :=
  dedupIds (n.qargs.filterMap (fun w => nextOnWire g w n.id))

/-- `dag.remove_op_node`: excise an op node; every wire path simply skips it,
which in this representation is deletion from the program-order list. -/
def removeOp (g : Graph) (i : Nat) : Graph :=
  { g with ops := g.ops.filter (fun n => n.id != i) }

/-- `dag.substitute_node(node, op, inplace=True)`: replace the node's gate and
parameters, keeping its identity, operand wires and all edges. -/
def substKP (g : Graph) (i : Nat) (k : GateKind) (p : List ℚ) : Graph :=
  { g with ops := g.ops.map (fun n =>
      if n.id = i then { n with name := k, params := p } else n) }

/-! ## `XHXtoHZReduction` -/

/-- One iteration of the `XHXtoHZReduction.run` scan loop at node `i`
(a node already removed from the DAG has no successors, so it cannot match). -/
def xhxStep (g : Graph) (i : Nat) : Graph :=
  match findOp g i with
  | none => g
  | some node =>
    if node.name = GateKind.x then
      match opSuccessors g node with
      | [hn] =>
        if hn.name = GateKind.h then
          match opSuccessors g hn with
          | [x2] =>
            if x2.name = GateKind.x then
              removeOp (substKP (substKP g node.id GateKind.h []) hn.id GateKind.z []) x2.id
            else g
          | _ => g
        else g
      | _ => g
    else g

/-- `XHXtoHZReduction.run`: scan the topological snapshot of op nodes. -/
def runXHXtoHZ (g : Graph) : Graph := g.ids.foldl xhxStep g

/-! ## `HXHtoZReduction` -/

/-- One iteration of the `HXHtoZReduction.run` scan loop at node `i`. -/
def hxhStep (g : Graph) (i : Nat) : Graph :=
  match findOp g i with
  | none => g
  | some node =>
    if node.name = GateKind.h then
      match opSuccessors g node with
      | [xn] =>
        if xn.name = GateKind.x then
          match opSuccessors g xn with
          | [h2] =>
            if h2.name = GateKind.h then
              removeOp (removeOp (substKP g node.id GateKind.z []) xn.id) h2.id
            else g
          | _ => g
        else g
      | _ => g
    else g

/-- `HXHtoZReduction.run`. -/
def runHXHtoZ (g : Graph) : Graph := g.ids.foldl hxhStep g

/-! ## `RemoveConsecutiveH` -/

/-- The scan phase of `RemoveConsecutiveH.run`: collect `to_remove`, extending
it with `[node, succ]` for every H node whose unique op successor is an H on
the same wire.  The scan does not mutate the graph. -/
def hPairs (g : Graph) : List Nat :=
  g.ops.foldl (fun acc node =>
    if node.name = GateKind.h then
      match opSuccessors g node with
      | [s1] =>
        if s1.name = GateKind.h ∧ s1.qargs.head? = node.qargs.head? then
          acc ++ [node.id, s1.id]
        else acc
      | _ => acc
    else acc) []

/-- `DAGCircuitError`: `dag.remove_op_node` raises when the node is no longer
in the graph. -/
inductive DagError
  | nodeNotInGraph
deriving DecidableEq

/-- The removal phase of `RemoveConsecutiveH.run`: remove the collected nodes
in order; removing a node that is already gone raises, leaving the graph in
its partially-mutated state. -/
def removeAllE (g : Graph) : List Nat → Graph × Option DagError
  | [] => (g, none)
  | i :: rest =>
    if (findOp g i).isSome then removeAllE (removeOp g i) rest
    else (g, some DagError.nodeNotInGraph)

/-- `RemoveConsecutiveH.run`: scan, then remove. -/
def runRemoveConsecutiveH (g : Graph) : Graph × Option DagError :=
  removeAllE g (hPairs g)

/-! ## `MergeConsecutiveRX` -/

/-- The per-qubit scan list of `MergeConsecutiveRX.run`: identities of the
`rx` nodes whose first operand is `q`, in program order. -/
def rxNodesOn (g : Graph) (q : Nat) : List Nat :=
  (g.ops.filter (fun n => n.name == GateKind.rx && n.qargs.head? == some q)).map (·.id)

/-- The while-loop of `MergeConsecutiveRX.run` over one qubit's scan list.
`list(dag.predecessors(next_node))[0] == current` holds exactly when the node
directly before `next` on its wire is `current` (for these single-qubit
nodes the predecessor list is a singleton; an input terminal never compares
equal to an op node).  On a merge the first node is substituted in place with
a rotation of the same kind carrying the parameter sum and the second node is
removed; the scan index stays put, which the fuelled recursion mirrors by
keeping `a` at the head.  The fuel is the scan-list length, which strictly
bounds the number of iterations. -/
def rxGo : Nat → Graph → List Nat → Graph
  | 0, g, _ => g
  | _ + 1, g, [] => g
  | _ + 1, g, [_] => g
  | fuel + 1, g, a :: b :: rest =>
    match findOp g a, findOp g b with
    | some cur, some nxt =>
      match nxt.qargs with
      | [] => g
      | w :: _ =>
        if (prevOnWire g w b).map (·.id) = some a then
          rxGo fuel
            (removeOp (substKP g a cur.name [cur.params.headI + nxt.params.headI]) b)
            (a :: rest)
        else rxGo fuel g (b :: rest)
    | _, _ => g

/-- `MergeConsecutiveRX.run`: for every qubit, scan that qubit's rx chain. -/
def runMergeConsecutiveRX (g : Graph) : Graph :=
  (List.range g.nq).foldl (fun gq q =>
    let l := rxNodesOn gq q
    rxGo l.length gq l) g

/-! ## `TCountTemplateReduction` -/

/-- One iteration of the `TCountTemplateReduction.run` scan loop at node `i`.
The source indexes `succs3[0]` (and `[arg for arg in cx1.qargs if arg != q][0]`)
without a length guard; where that would raise, no mutation has happened yet,
so the graph is returned unchanged. -/
def tStep (g : Graph) (i : Nat) : Graph :=
  match findOp g i with
  | none => g
  | some node =>
    if node.name = GateKind.t then
      match node.qargs with
      | [] => g
      | q :: _ =>
        match opSuccessors g node with
        | [cx1] =>
          if cx1.name = GateKind.cx then
            match cx1.qargs.filter (fun a => a != q) with
            | [] => g
            | _ :: _ =>
              match opSuccessors g cx1 with
              | [s20, s21] =>
                if s20.name = GateKind.cx ∧ s21.name = GateKind.tdg then
                  match opSuccessors g s20 with
                  | [] => g
                  | s3 :: _ =>
                    if s3.name = GateKind.t then
                      removeOp (removeOp (removeOp g s3.id) s20.id) s21.id
                    else g
                else g
              | _ => g
          else g
        | _ => g
    else g

/-- `TCountTemplateReduction.run`. -/
def runTCountTemplateReduction (g : Graph) : Graph := g.ids.foldl tStep g

/-! ## `ToffoliTCountReduction` -/

/-- `optimized_toffoli()`: the fixed 3-qubit, 4-T-count Toffoli decomposition
template circuit, as a graph. -/
def optimized_toffoli : Graph :=
  { nq := 3
    ops :=
      [ ⟨0, GateKind.h,   [2],    []⟩
      , ⟨1, GateKind.t,   [2],    []⟩
      , ⟨2, GateKind.cx,  [1, 2], []⟩
      , ⟨3, GateKind.tdg, [2],    []⟩
      , ⟨4, GateKind.cx,  [0, 2], []⟩
      , ⟨5, GateKind.t,   [2],    []⟩
      , ⟨6, GateKind.cx,  [1, 2], []⟩
      , ⟨7, GateKind.tdg, [2],    []⟩
      , ⟨8, GateKind.cx,  [0, 2], []⟩
      , ⟨9, GateKind.t,   [1],    []⟩
      , ⟨10, GateKind.h,  [2],    []⟩ ] }

/-- One iteration of the `ToffoliTCountReduction.run` loop: on a `ccx` node it
binds the node's qargs and builds the replacement template, but the
`substitute_node_with_dag` call is commented out in the source, so the graph
is returned untouched. -/
def toffoliStep (g : Graph) (i : Nat) : Graph :=
  match findOp g i with
  | none => g
  | some node =>
    if node.name = GateKind.ccx then
      let qargs := node.qargs
      let opt_toffoli := optimized_toffoli
      g
    else g

/-- `ToffoliTCountReduction.run`. -/
def runToffoliTCountReduction (g : Graph) : Graph := g.ids.foldl toffoliStep g

/-! ## The swap passes -/

/-- `set(xs) == set(ys)` for wire lists. -/
def sameWireSet (xs ys : List Nat) : Bool :=
  xs.all (fun a => decide (a ∈ ys)) && ys.all (fun a => decide (a ∈ xs))

/-- Membership-checked accumulation, mirroring `set.add`. -/
def addOnce (acc : List Nat) (i : Nat) : List Nat :=
  if i ∈ acc then acc else acc ++ [i]

/-- Deduplicate a wire list (first occurrences kept). -/
def dedupNatGo : List Nat → List Nat → List Nat
  | [], _ => []
  | a :: l, seen =>
    if a ∈ seen then dedupNatGo l seen else a :: dedupNatGo l (a :: seen)

/-- `len(set(xs).intersection(set(ys)))`. -/
def interCount (xs ys : List Nat) : Nat :=
  (dedupNatGo (xs.filter (fun a => decide (a ∈ ys))) []).length

/-- The scan phase of `OptimizeConsecutiveSwaps.run`: for each swap node not
already marked, mark it and its first swap successor acting on the same wire
pair.  The scan does not mutate the graph; removal happens afterwards. -/
def swapScanCancel (g : Graph) : List Nat :=
  (g.ops.filter (fun n => n.name == GateKind.swap)).foldl (fun acc s =>
    if s.id ∈ acc then acc
    else
      match (opSuccessors g s).find?
          (fun nxt => nxt.name == GateKind.swap && sameWireSet s.qargs nxt.qargs) with
      | some nxt => addOnce (addOnce acc s.id) nxt.id
      | none => acc) []

/-- `OptimizeConsecutiveSwaps.run`. -/
def runOptimizeConsecutiveSwaps (g : Graph) : Graph :=
  (swapScanCancel g).foldl removeOp g

/-- The scan phase of `MergeAdjacentSwapsPass.run`: for each swap node not
already marked, mark it and its first unmarked swap successor whose wire set
shares exactly one wire with it. -/
def swapScanMerge (g : Graph) : List Nat :=
  (g.ops.filter (fun n => n.name == GateKind.swap)).foldl (fun acc s =>
    if s.id ∈ acc then acc
    else
      match (opSuccessors g s).find?
          (fun nxt => nxt.name == GateKind.swap && decide (nxt.id ∉ acc)
            && interCount s.qargs nxt.qargs == 1) with
      | some nxt => addOnce (addOnce acc s.id) nxt.id
      | none => acc) []

/-- `MergeAdjacentSwapsPass.run`. -/
def runMergeAdjacentSwaps (g : Graph) : Graph :=
  (swapScanMerge g).foldl removeOp g

/-! ## The `remove` primitive on arbitrary node references -/

/-- A reference to any DAG node: a wire's input terminal, a wire's output
terminal, or an operation node. -/
inductive NodeRef
  | inTerm (w : Nat)
  | outTerm (w : Nat)
  | opRef (i : Nat)
deriving DecidableEq

/-- Errors of the removal primitive. -/
inductive RemovalError
  | invalidRemoval
  | nodeNotFound
deriving DecidableEq

/-- Modelled from the spec: the full `remove` mutation primitive of §4.2 lives
in the external DAG library (src/ holds only its callers).  Per the spec it
excises an operation node, reconnecting each operand wire's path, and fails
with `InvalidRemoval` when applied to a terminal node, in which case the graph
is left completely unchanged; no partial mutation occurs. -/
def removeNode (g : Graph) (n : NodeRef) : Graph × Option RemovalError :=
  match n with
  | NodeRef.inTerm _ => (g, some RemovalError.invalidRemoval)
  | NodeRef.outTerm _ => (g, some RemovalError.invalidRemoval)
  | NodeRef.opRef i =>
    if (findOp g i).isSome then (removeOp g i, none)
    else (g, some RemovalError.nodeNotFound)

/-! ## Graph invariants (§3 of the spec) -/

/-- Program position of a node identity. -/
def pidx (g : Graph) (i : Nat) : Nat := g.ids.indexOf i

/-- Basic well-formedness: distinct node identities; every node has a
non-empty list of pairwise-distinct operand wires. -/
def Graph.wfOps (g : Graph) : Prop :=
  g.ids.Nodup ∧ ∀ n ∈ g.ops, n.qargs ≠ [] ∧ n.qargs.Nodup

/-- The four §3 graph invariants, rendered on this representation:
1. distinct node identities (so each wire's path, the program-order restriction
   to the nodes using that wire, is well defined);
2. every operation node has a non-empty, duplicate-free operand list (per
   operand exactly one in- and one out-edge on the wire's path);
3. every wire's path is a simple path (no repeated node);
4. every per-wire adjacency goes strictly forward in one deterministic global
   program order, so the order is a topological order and the graph is
   acyclic. -/
def invariants (g : Graph) : Prop :=
  g.ids.Nodup ∧
  (∀ n ∈ g.ops, n.qargs ≠ [] ∧ n.qargs.Nodup) ∧
  (∀ w, ((wireOps g w).map (·.id)).Nodup) ∧
  (∀ w, ((wireOps g w).map (·.id)).Pairwise (fun a b => pidx g a < pidx g b))

/-! ## Concrete graphs from the spec's test scenarios -/

/-- Scenario ops `[X(0), H(0), X(0)]` on one wire. -/
def gXHX : Graph :=
  ⟨1, [⟨0, GateKind.x, [0], []⟩, ⟨1, GateKind.h, [0], []⟩, ⟨2, GateKind.x, [0], []⟩]⟩

/-- Scenario ops `[H(0), H(0)]` on one wire. -/
def gHH : Graph := ⟨1, [⟨0, GateKind.h, [0], []⟩, ⟨1, GateKind.h, [0], []⟩]⟩

/-- Ops `[H(0), H(0), H(0)]` on one wire. -/
def gHHH : Graph :=
  ⟨1, [⟨0, GateKind.h, [0], []⟩, ⟨1, GateKind.h, [0], []⟩, ⟨2, GateKind.h, [0], []⟩]⟩

/-- Scenario ops `[Swap(0,1), Swap(1,2)]` on three wires. -/
def gSwapShared : Graph :=
  ⟨3, [⟨0, GateKind.swap, [0, 1], []⟩, ⟨1, GateKind.swap, [1, 2], []⟩]⟩

/-- Ops `[Swap(0,1), Swap(1,2), Swap(0,3)]`: the first swap has op successors
on both of its wires (branching fan-out). -/
def gSwapFan : Graph :=
  ⟨4, [⟨0, GateKind.swap, [0, 1], []⟩, ⟨1, GateKind.swap, [1, 2], []⟩,
       ⟨2, GateKind.swap, [0, 3], []⟩]⟩

/-- A T-count template instance: `t 2; cx 2 1; cx 2 0; tdg 1; t 2`, in which
`cx 2 1`'s op successors are `[cx 2 0, tdg 1]` and `cx 2 0`'s first op
successor is the trailing `t 2`. -/
def gTmpl : Graph :=
  ⟨3, [⟨0, GateKind.t, [2], []⟩, ⟨1, GateKind.cx, [2, 1], []⟩,
       ⟨2, GateKind.cx, [2, 0], []⟩, ⟨3, GateKind.tdg, [1], []⟩,
       ⟨4, GateKind.t, [2], []⟩]⟩

/-- A single X gate on one wire (its op-successor list is empty). -/
def gSingleX : Graph := ⟨1, [⟨0, GateKind.x, [0], []⟩]⟩

/-! ## Well-formedness is preserved by the mutation primitives -/

theorem ids_substKP (g : Graph) (i : Nat) (k : GateKind) (p : List ℚ) :
    (substKP g i k p).ids = g.ids := by
  unfold substKP Graph.ids
  simp only [List.map_map]
  apply List.map_congr_left
  intro n _
  by_cases hn : n.id = i <;> simp [Function.comp, hn]

theorem wfOps_substKP {g : Graph} (i : Nat) (k : GateKind) (p : List ℚ)
    (h : g.wfOps) : (substKP g i k p).wfOps := by
  constructor
  · rw [ids_substKP]; exact h.1
  · intro n hn
    unfold substKP at hn
    simp only [List.mem_map] at hn
    obtain ⟨m, hm, rfl⟩ := hn
    have hq := h.2 m hm
    by_cases hid : m.id = i <;> simp [hid] <;> exact hq

theorem wfOps_removeOp {g : Graph} (i : Nat) (h : g.wfOps) : (removeOp g i).wfOps := by
  constructor
  · exact List.Nodup.sublist (List.Sublist.map _ (List.filter_sublist _)) h.1
  · intro n hn
    exact h.2 n (List.mem_of_mem_filter hn)

theorem wfOps_foldl {step : Graph → Nat → Graph}
    (hs : ∀ g i, g.wfOps → (step g i).wfOps) :
    ∀ (l : List Nat) (g : Graph), g.wfOps → (l.foldl step g).wfOps := by
  intro l
  induction l with
  | nil => intro g h; exact h
  | cons a l ih => intro g h; exact ih _ (hs g a h)

theorem wfOps_xhxStep {g : Graph} (i : Nat) (h : g.wfOps) : (xhxStep g i).wfOps := by
  unfold xhxStep
  repeat' split
  all_goals first
    | exact h
    | exact wfOps_removeOp _ (wfOps_substKP _ _ _ (wfOps_substKP _ _ _ h))

theorem wfOps_hxhStep {g : Graph} (i : Nat) (h : g.wfOps) : (hxhStep g i).wfOps := by
  unfold hxhStep
  repeat' split
  all_goals first
    | exact h
    | exact wfOps_removeOp _ (wfOps_removeOp _ (wfOps_substKP _ _ _ h))

theorem wfOps_tStep {g : Graph} (i : Nat) (h : g.wfOps) : (tStep g i).wfOps := by
  unfold tStep
  repeat' split
  all_goals first
    | exact h
    | exact wfOps_removeOp _ (wfOps_removeOp _ (wfOps_removeOp _ h))

theorem wfOps_toffoliStep {g : Graph} (i : Nat) (h : g.wfOps) :
    (toffoliStep g i).wfOps := by
  unfold toffoliStep
  repeat' split
  all_goals exact h

theorem wfOps_removeAllE :
    ∀ (l : List Nat) (g : Graph), g.wfOps → (removeAllE g l).1.wfOps := by
  intro l
  induction l with
  | nil => intro g h; exact h
  | cons a l ih =>
    intro g h
    unfold removeAllE
    split
    · exact ih _ (wfOps_removeOp _ h)
    · exact h

theorem wfOps_rxGo :
    ∀ (fuel : Nat) (l : List Nat) (g : Graph), g.wfOps → (rxGo fuel g l).wfOps := by
  intro fuel
  induction fuel with
  | zero => intro l g h; exact h
  | succ m ih =>
    intro l g h
    match l with
    | [] => exact h
    | [a] => exact h
    | a :: b :: rest =>
      unfold rxGo
      repeat' split
      all_goals first
        | exact h
        | exact ih _ _ (wfOps_removeOp _ (wfOps_substKP _ _ _ h))
        | exact ih _ _ h

theorem wfOps_runXHXtoHZ {g : Graph} (h : g.wfOps) : (runXHXtoHZ g).wfOps :=
  wfOps_foldl (fun _ i hh => wfOps_xhxStep i hh) _ _ h

theorem wfOps_runHXHtoZ {g : Graph} (h : g.wfOps) : (runHXHtoZ g).wfOps :=
  wfOps_foldl (fun _ i hh => wfOps_hxhStep i hh) _ _ h

theorem wfOps_runRemoveConsecutiveH {g : Graph} (h : g.wfOps) :
    (runRemoveConsecutiveH g).1.wfOps :=
  wfOps_removeAllE _ _ h

theorem wfOps_runMergeConsecutiveRX {g : Graph} (h : g.wfOps) :
    (runMergeConsecutiveRX g).wfOps :=
  wfOps_foldl (fun gq q hh => wfOps_rxGo (rxNodesOn gq q).length (rxNodesOn gq q) gq hh) _ _ h

theorem wfOps_runTCount {g : Graph} (h : g.wfOps) :
    (runTCountTemplateReduction g).wfOps :=
  wfOps_foldl (fun _ i hh => wfOps_tStep i hh) _ _ h

theorem wfOps_runToffoli {g : Graph} (h : g.wfOps) :
    (runToffoliTCountReduction g).wfOps :=
  wfOps_foldl (fun _ i hh => wfOps_toffoliStep i hh) _ _ h

theorem wfOps_runOptimizeConsecutiveSwaps {g : Graph} (h : g.wfOps) :
    (runOptimizeConsecutiveSwaps g).wfOps :=
  wfOps_foldl (fun _ i hh => wfOps_removeOp i hh) _ _ h

theorem wfOps_runMergeAdjacentSwaps {g : Graph} (h : g.wfOps) :
    (runMergeAdjacentSwaps g).wfOps :=
  wfOps_foldl (fun _ i hh => wfOps_removeOp i hh) _ _ h

/-! ## The derived invariants follow from well-formedness -/

theorem nodup_pairwise_indexOf {l : List Nat} (h : l.Nodup) :
    l.Pairwise (fun a b => l.indexOf a < l.indexOf b) := by
  rw [List.pairwise_iff_getElem]
  intro i j hi hj hij
  rw [List.indexOf_getElem h i hi, List.indexOf_getElem h j hj]
  exact hij

theorem wireIds_sublist (g : Graph) (w : Nat) :
    ((wireOps g w).map (·.id)).Sublist g.ids :=
  List.Sublist.map _ (List.filter_sublist _)

theorem invariants_of_wfOps {g : Graph} (h : g.wfOps) : invariants g := by
  refine ⟨h.1, h.2, ?_, ?_⟩
  · intro w
    exact List.Nodup.sublist (wireIds_sublist g w) h.1
  · intro w
    exact List.Pairwise.sublist (wireIds_sublist g w) (nodup_pairwise_indexOf h.1)

/-! ## Successor membership -/

theorem mem_of_mem_dedupGo :
    ∀ (l : List OpNode) (seen : List Nat) (b : OpNode), b ∈ dedupGo l seen → b ∈ l := by
  intro l
  induction l with
  | nil => intro seen b hb; exact absurd hb (by simp [dedupGo])
  | cons a l ih =>
    intro seen b hb
    unfold dedupGo at hb
    split at hb
    · exact List.mem_cons_of_mem a (ih _ _ hb)
    · rcases List.mem_cons.1 hb with h1 | h1
      · exact h1 ▸ List.mem_cons_self a l
      · exact List.mem_cons_of_mem a (ih _ _ h1)

theorem mem_wireOps_of_nextOnWire {g : Graph} {w i : Nat} {b : OpNode}
    (hb : nextOnWire g w i = some b) : b ∈ wireOps g w := by
  unfold nextOnWire at hb
  obtain ⟨ys, hys⟩ := List.head?_eq_some_iff.1 hb
  have hbtail : b ∈ ((wireOps g w).dropWhile (fun n => n.id != i)).tail := by
    rw [hys]; exact List.mem_cons_self b ys
  exact (List.dropWhile_sublist _).subset ((List.tail_sublist _).subset hbtail)

theorem mem_ops_of_mem_opSuccessors {g : Graph} {n b : OpNode}
    (hb : b ∈ opSuccessors g n) : b ∈ g.ops := by
  unfold opSuccessors dedupIds at hb
  obtain ⟨w, _, hw⟩ := List.mem_filterMap.1 (mem_of_mem_dedupGo _ _ _ hb)
  exact List.mem_of_mem_filter (mem_wireOps_of_nextOnWire hw)

/-! ## Helper facts for `ToffoliTCountReduction` -/

theorem toffoliStep_eq (g : Graph) (i : Nat) : toffoliStep g i = g := by
  unfold toffoliStep
  split
  · rfl
  · split <;> rfl

theorem toffoli_fold_eq : ∀ (l : List Nat) (g : Graph), l.foldl toffoliStep g = g := by
  intro l
  induction l with
  | nil => intro g; rfl
  | cons a l ih =>
    intro g
    rw [List.foldl_cons, toffoliStep_eq]
    exact ih g

/-! ## Claim theorems -/

/-- C1: on input ops `[Swap(0,1), Swap(1,2)]`, where the second swap is the
unique op successor of the first and their operand sets share exactly wire 1,
`MergeAdjacentSwapsPass` removes both swap nodes, leaving an empty operation
list. -/
theorem mergeAdjacentSwaps_sharedWire_removesBoth :
    opSuccessors gSwapShared ⟨0, GateKind.swap, [0, 1], []⟩ = [⟨1, GateKind.swap, [1, 2], []⟩]
    ∧ interCount [0, 1] [1, 2] = 1
    ∧ runMergeAdjacentSwaps gSwapShared = ⟨3, []⟩ := by decide

/-- C2: `ToffoliTCountReduction.run` is the identity on every graph — the
replacement template is computed but never applied — in particular on a graph
consisting of a single `ccx` node. -/
theorem toffoliTCountReduction_is_identity :
    (∀ g : Graph, runToffoliTCountReduction g = g)
    ∧ runToffoliTCountReduction ⟨3, [⟨0, GateKind.ccx, [0, 1, 2], []⟩]⟩
        = ⟨3, [⟨0, GateKind.ccx, [0, 1, 2], []⟩]⟩ :=
  ⟨fun _ => toffoli_fold_eq _ _, toffoli_fold_eq _ _⟩

/-- C3: whenever `TCountTemplateReduction`'s pattern matches at a T node
(unique op successor a `cx`; that `cx` with op successors exactly
`[cx, tdg]`; the first of those with a `t` as first op successor), the loop
body removes exactly the three downstream nodes — the second `cx`, the `tdg`
and the trailing `t` — while the originating T node and the first `cx` node
remain in the graph unchanged. -/
theorem tCountTemplate_frame (g : Graph) (i : Nat) (tn cx1 s20 s21 s3 : OpNode)
    (q : Nat) (qs : List Nat)
    (hf : findOp g i = some tn)
    (htn : tn.name = GateKind.t)
    (hq : tn.qargs = q :: qs)
    (hs1 : opSuccessors g tn = [cx1])
    (hcx : cx1.name = GateKind.cx)
    (hc : cx1.qargs.filter (fun a => a != q) ≠ [])
    (hs2 : opSuccessors g cx1 = [s20, s21])
    (h20 : s20.name = GateKind.cx)
    (h21 : s21.name = GateKind.tdg)
    (hs3 : (opSuccessors g s20).head? = some s3)
    (ht : s3.name = GateKind.t)
    (hd1 : tn.id ≠ s3.id ∧ tn.id ≠ s20.id ∧ tn.id ≠ s21.id)
    (hd2 : cx1.id ≠ s3.id ∧ cx1.id ≠ s20.id ∧ cx1.id ≠ s21.id) :
    (∀ n : OpNode, n ∈ (tStep g i).ops ↔
        n ∈ g.ops ∧ n.id ≠ s3.id ∧ n.id ≠ s20.id ∧ n.id ≠ s21.id)
    ∧ tn ∈ (tStep g i).ops ∧ cx1 ∈ (tStep g i).ops := by
  obtain ⟨c0, cs, hcs⟩ := List.exists_cons_of_ne_nil hc
  obtain ⟨ys, hys⟩ := List.head?_eq_some_iff.1 hs3
  have hstep : tStep g i = removeOp (removeOp (removeOp g s3.id) s20.id) s21.id := by
    simp only [tStep, hf, htn, hq, hs1, hcx, hcs, hs2, h20, h21, hys, ht, if_true, and_self]
  have hmem : ∀ n : OpNode, n ∈ (tStep g i).ops ↔
      n ∈ g.ops ∧ n.id ≠ s3.id ∧ n.id ≠ s20.id ∧ n.id ≠ s21.id := by
    intro n
    rw [hstep]
    simp only [removeOp, List.mem_filter, bne_iff_ne]
    tauto
  refine ⟨hmem, ?_, ?_⟩
  · exact (hmem tn).2 ⟨List.mem_of_find?_eq_some hf, hd1.1, hd1.2.1, hd1.2.2⟩
  · have hcx1 : cx1 ∈ g.ops :=
      mem_ops_of_mem_opSuccessors (by rw [hs1]; exact List.mem_cons_self cx1 [])
    exact (hmem cx1).2 ⟨hcx1, hd2.1, hd2.2.1, hd2.2.2⟩

/-- Witness for C3: the pattern instance `gTmpl`, matched at the leading T
node; ids 4 (trailing t), 2 (second cx) and 3 (tdg) are removed, the leading
t and the first cx survive. -/
theorem tCountTemplate_frame_witness :
    (∀ n : OpNode, n ∈ (tStep gTmpl 0).ops ↔
        n ∈ gTmpl.ops ∧ n.id ≠ 4 ∧ n.id ≠ 2 ∧ n.id ≠ 3)
    ∧ (⟨0, GateKind.t, [2], []⟩ : OpNode) ∈ (tStep gTmpl 0).ops
    ∧ (⟨1, GateKind.cx, [2, 1], []⟩ : OpNode) ∈ (tStep gTmpl 0).ops :=
  tCountTemplate_frame gTmpl 0 ⟨0, GateKind.t, [2], []⟩ ⟨1, GateKind.cx, [2, 1], []⟩
    ⟨2, GateKind.cx, [2, 0], []⟩ ⟨3, GateKind.tdg, [1], []⟩ ⟨4, GateKind.t, [2], []⟩
    2 [] (by decide) (by decide) (by decide) (by decide) (by decide) (by decide)
    (by decide) (by decide) (by decide) (by decide) (by decide) (by decide) (by decide)

/-- C4 counterexample: in `gSwapFan` the first swap node has two op
successors (branching fan-out), yet `MergeAdjacentSwapsPass` rewrites it —
after the pass the node is gone from the graph. -/
theorem branching_fanout_counterexample :
    (opSuccessors gSwapFan ⟨0, GateKind.swap, [0, 1], []⟩).length = 2
    ∧ (⟨0, GateKind.swap, [0, 1], []⟩ : OpNode) ∈ gSwapFan.ops
    ∧ findOp (runMergeAdjacentSwaps gSwapFan) 0 = none := by decide

/-- C4 amended: the single-qubit chain rules gate their rewrite on the matched
node having exactly one op successor — `XHXtoHZReduction`'s loop body leaves
the graph untouched whenever the scanned node's op-successor list is not a
singleton — but the adjacent-swap passes do not: `MergeAdjacentSwapsPass`
rewrites a matched swap with two op successors (it removes the swap and one
matching successor, dropping the other branch), as on `gSwapFan`. -/
theorem branching_fanout_amended :
    (∀ (g : Graph) (i : Nat) (node : OpNode), findOp g i = some node →
        (opSuccessors g node).length ≠ 1 → xhxStep g i = g)
    ∧ (opSuccessors gSwapFan ⟨0, GateKind.swap, [0, 1], []⟩).length = 2
    ∧ runMergeAdjacentSwaps gSwapFan = ⟨4, [⟨1, GateKind.swap, [1, 2], []⟩]⟩ := by
  refine ⟨?_, by decide, by decide⟩
  intro g i node hf hlen
  simp only [xhxStep, hf]
  by_cases hx : node.name = GateKind.x
  · rw [if_pos hx]
    rcases hsl : opSuccessors g node with _ | ⟨a, _ | ⟨b, tl⟩⟩
    · rfl
    · exact absurd (by rw [hsl]; rfl) hlen
    · rfl
  · rw [if_neg hx]

/-- Witness for C4's amended theorem: a lone X gate has no op successor, so
the X·H·X loop body leaves the graph unchanged. -/
theorem branching_fanout_amended_witness : xhxStep gSingleX 0 = gSingleX :=
  branching_fanout_amended.1 gSingleX 0 ⟨0, GateKind.x, [0], []⟩ (by decide) (by decide)

/-- C5: every rewrite pass maps a graph satisfying the §3 invariants to a
graph satisfying them again (for `RemoveConsecutiveH` this covers the graph
state the pass leaves behind even when its removal loop raises). -/
theorem invariants_preserved (g : Graph) (h : invariants g) :
    invariants (runXHXtoHZ g) ∧ invariants (runHXHtoZ g)
    ∧ invariants (runRemoveConsecutiveH g).1 ∧ invariants (runMergeConsecutiveRX g)
    ∧ invariants (runTCountTemplateReduction g) ∧ invariants (runToffoliTCountReduction g)
    ∧ invariants (runOptimizeConsecutiveSwaps g) ∧ invariants (runMergeAdjacentSwaps g) := by
  have hw : g.wfOps := ⟨h.1, h.2.1⟩
  exact ⟨invariants_of_wfOps (wfOps_runXHXtoHZ hw), invariants_of_wfOps (wfOps_runHXHtoZ hw),
    invariants_of_wfOps (wfOps_runRemoveConsecutiveH hw),
    invariants_of_wfOps (wfOps_runMergeConsecutiveRX hw),
    invariants_of_wfOps (wfOps_runTCount hw), invariants_of_wfOps (wfOps_runToffoli hw),
    invariants_of_wfOps (wfOps_runOptimizeConsecutiveSwaps hw),
    invariants_of_wfOps (wfOps_runMergeAdjacentSwaps hw)⟩

/-- Witness for C5 at the concrete graph `gXHX`. -/
theorem invariants_preserved_witness :
    invariants (runXHXtoHZ gXHX) ∧ invariants (runHXHtoZ gXHX)
    ∧ invariants (runRemoveConsecutiveH gXHX).1 ∧ invariants (runMergeConsecutiveRX gXHX)
    ∧ invariants (runTCountTemplateReduction gXHX) ∧ invariants (runToffoliTCountReduction gXHX)
    ∧ invariants (runOptimizeConsecutiveSwaps gXHX) ∧ invariants (runMergeAdjacentSwaps gXHX) :=
  invariants_preserved gXHX (invariants_of_wfOps ⟨by decide, by decide⟩)

/-- C6: `MergeConsecutiveRX` merges a directly-chained same-wire pair of `rx`
nodes into the first node carrying the exact parameter sum, removing the
second — for all parameter values, and in particular
`[Rotation(0, 0.3), Rotation(0, 0.5)]` becomes `[Rotation(0, 0.8)]`. -/
theorem mergeConsecutiveRX_sums_parameters :
    (∀ q1 q2 : ℚ,
      runMergeConsecutiveRX ⟨1, [⟨0, GateKind.rx, [0], [q1]⟩, ⟨1, GateKind.rx, [0], [q2]⟩]⟩
        = ⟨1, [⟨0, GateKind.rx, [0], [q1 + q2]⟩]⟩)
    ∧ runMergeConsecutiveRX ⟨1, [⟨0, GateKind.rx, [0], [3/10]⟩, ⟨1, GateKind.rx, [0], [5/10]⟩]⟩
        = ⟨1, [⟨0, GateKind.rx, [0], [8/10]⟩]⟩ := by
  refine ⟨fun q1 q2 => rfl, ?_⟩
  show Graph.mk 1 [⟨0, GateKind.rx, [0], [(3 : ℚ)/10 + 5/10]⟩]
      = Graph.mk 1 [⟨0, GateKind.rx, [0], [8/10]⟩]
  norm_num

/-- C7: on input ops `[X(0), H(0), X(0)]` the X·H·X rule yields `[H(0), Z(0)]`
(first X substituted by H in place, the H substituted by Z, second X removed). -/
theorem xhx_concrete :
    runXHXtoHZ gXHX = ⟨1, [⟨0, GateKind.h, [0], []⟩, ⟨1, GateKind.z, [0], []⟩]⟩ := by decide

/-- C8: on input ops `[H(0), H(0)]` the consecutive-H cancellation removes
both nodes, leaving an empty operation list. -/
theorem removeConsecutiveH_pair : runRemoveConsecutiveH gHH = (⟨1, []⟩, none) := by decide

/-- C9: the `remove` primitive applied to an `InputTerminal` fails with
`InvalidRemoval` and returns the graph completely unchanged. -/
theorem remove_inputTerminal_invalidRemoval :
    ∀ (g : Graph) (w : Nat),
      removeNode g (NodeRef.inTerm w) = (g, some RemovalError.invalidRemoval) :=
  fun _ _ => rfl

/-- C10: on input ops `[H(0), H(0), H(0)]` the scan of `RemoveConsecutiveH`
collects `[0, 1, 1, 2]` — the middle H (id 1) twice, as second element of the
first pair and first element of the second — so the removal loop attempts to
remove an already-removed node and raises, leaving `[H(0)]` behind with an
error rather than cleanly reducing the list to `[H(0)]`. -/
theorem removeConsecutiveH_tripleH_duplicate :
    hPairs gHHH = [0, 1, 1, 2]
    ∧ runRemoveConsecutiveH gHHH
        = (⟨1, [⟨2, GateKind.h, [0], []⟩]⟩, some DagError.nodeNotInGraph) := by decide
